import Mathlib

/-!
Verification of the segment-reconciliation core of the SpeachToTextExam
repository (files `language_detector.py`, `segment_merger.py`,
`transcription_segment.py`).

Embedding conventions:
* Python `float` times and scores are embedded as exact rationals (`ℚ`);
  all numeric literals of the source (0.5, 0.3, 0.25, 3.5, 4.0, 4.5, 0.7,
  0.8, 0.6, 0.4, 3.2, 0.45, 0.15, 2.5, ...) are exact rationals.
* Python `str` is embedded as `List Char`.  `str.lower()` is modelled on
  the alphabets this program distinguishes (ASCII Latin and Russian
  Cyrillic); `str.isalpha()` is modelled as membership in those two
  alphabets, `str.split()` as splitting on whitespace runs, and
  `re.findall(r'[class]+', s)` as the maximal runs of characters of the
  class.
* The third-party `pyspellchecker` dictionaries are external data, not
  code of this repository; they are abstracted as oracle predicates
  `spell_ru spell_en : List Char → Bool` ("the word is known"), and
  `SpellChecker.unknown(words)` — which returns a *set* — is modelled as
  the deduplicated list of words the oracle rejects.
* `TranscriptionSegment` objects are embedded as values; the in-place
  mutation `last.end_time = seg.end_time` of `merge_adjacent_identical`
  becomes a functional record update.
-/

namespace STT

set_option maxRecDepth 100000
set_option maxHeartbeats 1000000

/-- Model of Python `str.lower()` restricted to the ASCII Latin and
Russian Cyrillic alphabets (`A-Z → a-z`, `А-Я → а-я`, `Ё → ё`). -/
def pyLower (c : Char) : Char :=
  if 'A' ≤ c ∧ c ≤ 'Z' then Char.ofNat (c.toNat + 32)
  else if 'А' ≤ c ∧ c ≤ 'Я' then Char.ofNat (c.toNat + 32)
  else if c = 'Ё' then 'ё'
  else c

/-- The character class `[а-яА-ЯёЁ]` of the source's regexes. -/
def isCyrillicLetter (c : Char) : Bool :=
  decide (('а' ≤ c ∧ c ≤ 'я') ∨ ('А' ≤ c ∧ c ≤ 'Я') ∨ c = 'ё' ∨ c = 'Ё')

/-- The character class `[a-zA-Z]` of the source's regexes. -/
def isLatinLetter (c : Char) : Bool :=
  decide (('a' ≤ c ∧ c ≤ 'z') ∨ ('A' ≤ c ∧ c ≤ 'Z'))

/-- Model of Python `str.isalpha()` restricted to the two alphabets the
program distinguishes. -/
def isAlphaLetter (c : Char) : Bool :=
  isCyrillicLetter c || isLatinLetter c

/-- Python whitespace (the characters `str.split()` and `str.strip()`
split on, restricted to the ASCII whitespace actually reachable here). -/
def pyIsSpace (c : Char) : Bool :=
  c = ' ' || c = '\t' || c = '\n' || c = '\r' || c = '\x0b' || c = '\x0c'

/-- Accumulator-based splitting of a character list into the maximal runs
of characters satisfying `p` (the model of `re.findall(r'[p]+', ·)` and,
with `p = not whitespace`, of `str.split()`). -/
def tokensAux (p : Char → Bool) : List Char → List Char → List (List Char)
  | [], cur => if cur = [] then [] else [cur.reverse]
  | c :: cs, cur =>
    if p c then tokensAux p cs (c :: cur)
    else if cur = [] then tokensAux p cs []
    else cur.reverse :: tokensAux p cs []

/-- The maximal runs of characters satisfying `p`. -/
def tokens (p : Char → Bool) (t : List Char) : List (List Char) :=
  tokensAux p t []

/-- Model of Python `text.split()`. -/
def pySplit (t : List Char) : List (List Char) :=
  tokens (fun c => !pyIsSpace c) t

/-- Model of `re.findall(r'[а-яА-ЯёЁ]+', text.lower())`. -/
def cyrTokens (t : List Char) : List (List Char) :=
  tokens isCyrillicLetter (t.map pyLower)

/-- Model of `re.findall(r'[а-яА-ЯёЁa-zA-Z]+', text.lower())`. -/
def alphaTokens (t : List Char) : List (List Char) :=
  tokens isAlphaLetter (t.map pyLower)

/-- Number of Cyrillic letters in a text (`len(re.findall(r'[а-яёА-ЯЁ]', text))`). -/
def countCyr (t : List Char) : Nat := t.countP isCyrillicLetter

/-- Number of Latin letters in a text (`len(re.findall(r'[a-zA-Z]', text))`). -/
def countLat (t : List Char) : Nat := t.countP isLatinLetter

/-- Result type of `LanguageDetector.detect_language`. -/
inductive Lang where
  | ru | en | mixed | unknown
deriving DecidableEq

/-- `LanguageDetector.COMMON_SHORT_RUSSIAN_WORDS`, transcribed entry by
entry from the source.  The source's set literal is missing a comma after
`'шли'`, so Python's implicit string concatenation makes the single entry
`'шлиона'` out of `'шли'` and `'она'`; that is reproduced here.  The
source's set contains duplicate entries; a duplicated list entry has the
same membership semantics. -/
def COMMON_SHORT_RUSSIAN_WORDS : List String := [
  "я", "а", "в", "с", "к", "и", "по", "на", "не", "до", "да", "то", "он", "ты", "мы", "тут", "шёл", "шла", "шлиона",
  "они", "оно", "это", "или", "но", "мне", "тебе", "ему", "ей", "им", "вас", "нас", "там", "чего",
  "того", "этот", "такой", "какой", "кто", "что", "где", "как", "когда", "зачем",
  "ну", "же", "вот", "уж", "уже", "даже", "все", "весь", "каждый", "мой", "твой",
  "его", "её", "наш", "ваш", "их", "хорош", "плохо", "хорошо", "плох", "дай",
  "возьми", "пойди", "иди", "дайте", "возьмите", "идите", "слушай", "смотри",
  "помогу", "помоги", "помогите", "спасибо", "пожалуйста", "извините", "извини",
  "тебя", "тебе", "в", "не", "на", "с", "я", "что", "он", "она", "они",
  "как", "но", "до", "по", "за", "к", "у", "же", "мне", "ты",
  "из", "бы", "то", "так", "его", "все", "еще", "был", "там", "да",
  "вы", "быть", "нет", "это", "может", "они", "над", "при", "для", "без",
  "под", "над", "про", "лишь", "только", "даже", "уже", "ну", "во", "от",
  "кто", "то", "ли", "ни", "де", "ми", "те", "бе", "ре", "ве",
  "ви", "ди", "ле", "ме", "не", "ре", "се", "те", "че", "ше",
  "где", "когда", "чего", "чему", "чем", "чей", "чья", "чьё", "чьи", "какой",
  "такой", "этот", "мой", "твой", "его", "её", "их", "наш", "ваш", "свой",
  "один", "два", "три", "четыре", "пять", "шесть", "семь", "восемь", "девять", "десять",
  "ноль", "нуль", "первый", "второй", "третий", "четвёртый", "пятый", "большой", "малый", "новый",
  "старый", "добрый", "злой", "хороший", "плохой", "красивый", "умный", "глупый", "быстро", "медленно",
  "легкий", "трудный", "простой", "сложный", "горячий", "холодный", "светлый", "темный", "чистый", "грязный",
  "веселый", "грустный", "радостный", "печальный", "счастливый", "несчастный", "честный", "лживый", "правдивый", "важный",
  "интересный", "скучный", "ранний", "поздний", "дальний", "ближний", "левый", "правый", "верхний", "нижний",
  "дом", "дверь", "окно", "стол", "стул", "кровать", "книга", "ручка", "ручей", "река",
  "озеро", "море", "лес", "поле", "гора", "город", "улица", "школа", "мама", "папа",
  "брат", "сестра", "сын", "дочь", "муж", "жена", "друг", "человек", "люди", "мальчик",
  "девочка", "девушка", "юноша", "старик", "баба", "бабушка", "дедушка", "врач", "учитель", "ученик",
  "студент", "работник", "начальник", "сосед", "знакомый", "враг", "глаз", "нос", "рот", "ухо",
  "рука", "нога", "голова", "волос", "зуб", "язык", "сердце", "печень", "воздух", "огонь",
  "вода", "земля", "камень", "песок", "трава", "цветок", "дерево", "лист", "ветка", "корень",
  "хлеб", "молоко", "масло", "мясо", "рыба", "яйцо", "суп", "каша", "борщ", "блюдо",
  "чашка", "ложка", "вилка", "нож", "пища", "еда", "напиток", "чай", "кофе", "вино",
  "пиво", "спирт", "газ", "пар", "дым", "запах", "вкус", "звук", "музыка", "песня",
  "танец", "картина", "рисунок", "фото", "кино", "театр", "цирк", "игра", "спорт", "мяч",
  "лыжа", "коньки", "горка", "елка", "праздник", "день", "ночь", "утро", "вечер", "час",
  "минута", "секунда", "год", "месяц", "неделя", "работа", "дело", "занятие", "класс", "урок",
  "оценка", "пятёрка", "четвёрка", "тройка", "двойка", "единица", "экзамен", "поэт", "писатель", "артист",
  "певец", "танцор", "музыкант", "художник", "скульптор", "архитектор", "инженер", "механик", "электрик", "сантехник",
  "каменщик", "плотник", "кузнец", "портной", "сапожник", "парикмахер", "флорист", "садовник", "пастух", "рыбак",
  "охотник", "летчик", "капитан", "матрос", "солдат", "офицер", "генерал", "король", "королева", "князь",
  "граф", "герцог", "барон", "дворянин", "боярин", "хозяин", "хозяйка", "слуга", "служитель", "раб",
  "крестьянин", "крестьянка", "купец", "ремесленник", "безработный", "инвалид", "сирота", "вдова", "вдовец", "холостяк",
  "молодой", "молодежь", "молодость", "возраст", "старость", "детство", "много", "немного", "несколько", "мало",
  "совсем", "вовсе", "очень", "весьма", "сильно", "слабо", "почти", "примерно", "приблизительно", "около",
  "больше", "меньше", "лучше", "хуже", "быстрее", "медленнее", "выше", "ниже", "дальше", "ближе",
  "раньше", "позже", "скорее", "разнообразнее", "проще", "сложнее", "глубже", "мельче", "шире", "уже",
  "длиннее", "короче", "толще", "тоньше", "светлее", "темнее", "ярче", "бледнее", "красивее", "некрасивее",
  "странно", "неправда", "правда", "конечно", "наверное", "может", "возможно", "невозможно", "именно", "точно",
  "здесь", "тут", "туда", "сюда", "оттуда", "отсюда", "везде", "всюду", "нигде", "никуда",
  "откуда", "кудаже", "там", "далеко", "близко", "рядом", "вместе", "отдельно", "другой", "иной",
  "любой", "никакой", "всякий", "известный", "неизвестный", "знаменитый", "ужас", "страх", "страшный", "ужасный",
  "замечательно", "отлично", "весь", "каждый", "кое", "сам", "себя", "себе", "собой", "собою",
  "начинать", "заканчивать", "продолжать", "останавливаться", "ждать", "искать", "находить", "терять", "помнить", "забывать",
  "думать", "верить", "сомневаться", "решать", "выбирать", "соглашаться", "отказываться", "спрашивать", "отвечать", "рассказывать",
  "обещать", "выполнять", "нарушать", "помогать", "мешать", "благодарить", "извиняться", "праздновать", "печалиться", "радоваться",
  "удивляться", "страдать", "любить", "ненавидеть", "знать", "понимать", "говорить", "читать", "писать", "слушать",
  "смотреть", "делать", "работать", "учиться", "играть", "ходить", "бежать", "прыгать", "плавать", "летать",
  "ехать", "приезжать", "уезжать", "приходить", "уходить", "сидеть", "лежать", "стоять", "падать", "вставать",
  "ложиться", "дать", "взять", "иметь", "хотеть", "нужно", "надо", "можно", "нельзя", "хорошо",
  "плохо", "красиво", "да", "нет", "вот", "или", "союз", "ле", "те", "ве"]

/-- Membership of a word token in the common-word lexicon. -/
def isCommonWord (w : List Char) : Bool :=
  COMMON_SHORT_RUSSIAN_WORDS.contains (String.mk w)

/-- `LanguageDetector.MAX_VERY_SHORT_WORDS_RATIO` (0.45).  The source
constant's name is shortened here. -/
def MAX_VERY_SHORT_WORDS : ℚ := 9/20

/-- `LanguageDetector.MIN_AVG_WORD_LENGTH` (3.2). -/
def MIN_AVG_WORD_LENGTH : ℚ := 16/5

/-- `LanguageDetector.MIN_VERY_LONG_WORDS_RATIO` (0.15).  The source
constant's name is shortened here. -/
def MIN_VERY_LONG_WORDS : ℚ := 3/20

/-- `LanguageDetector.detect_language`. -/
def detect_language (t : List Char) : Lang :=
  let cyrillic_count := countCyr t
  let latin_count := countLat t
  if cyrillic_count = 0 ∧ latin_count = 0 then .unknown
  else
    let total := cyrillic_count + latin_count
    let cyrillic_ratio : ℚ := if total > 0 then (cyrillic_count : ℚ) / (total : ℚ) else 0
    if cyrillic_ratio > 3/5 then .ru
    else if cyrillic_ratio < 2/5 then .en
    else .mixed

/-- `LanguageDetector._calculate_base_score`. -/
def calculate_base_score (t : List Char) : ℚ :=
  let words := pySplit t
  let word_count := words.length
  let letter_count := t.countP isAlphaLetter
  let word_score := min ((word_count : ℚ) / 10) 1 * (1/5)
  let letter_score := min ((letter_count : ℚ) / 50) 1 * (1/5)
  let cyrillic_ratio : ℚ := (countCyr t : ℚ) / (max letter_count 1 : ℚ)
  let latin_ratio : ℚ := (countLat t : ℚ) / (max letter_count 1 : ℚ)
  let alphabet_score := max cyrillic_ratio latin_ratio * (1/5)
  let text_len := t.length
  let length_score : ℚ :=
    if 10 < text_len ∧ text_len < 200 then 1/5
    else if text_len < 5 ∨ text_len > 300 then 1/20
    else 1/10
  word_score + letter_score + alphabet_score + length_score + 1/5

/-- `LanguageDetector._calculate_spell_penalty`, with the pyspellchecker
dictionaries abstracted as the oracles `spell_ru`, `spell_en`
(`SpellChecker.unknown` returns the *set* of unknown words, hence the
deduplication before counting). -/
def calculate_spell_penalty (spell_ru spell_en : List Char → Bool) (t : List Char) : ℚ :=
  match detect_language t with
  | .ru =>
    let words := pySplit (t.map pyLower)
    let misspelled := (words.filter (fun w => !spell_ru w)).dedup
    let error_ratio : ℚ := (misspelled.length : ℚ) / (max words.length 1 : ℚ)
    max (1 - error_ratio * (5/2)) 0
  | .en =>
    let words := pySplit (t.map pyLower)
    let misspelled := (words.filter (fun w => !spell_en w)).dedup
    let error_ratio : ℚ := (misspelled.length : ℚ) / (max words.length 1 : ℚ)
    max (1 - error_ratio * (5/2)) 0
  | _ => 4/5

/-- `LanguageDetector._calculate_context_bonus`. -/
def calculate_context_bonus (t : List Char) : ℚ :=
  if detect_language t = .ru then
    let russian_words := cyrTokens t
    if russian_words = [] then 0
    else
      let common_count := russian_words.countP isCommonWord
      let common_ratio : ℚ := (common_count : ℚ) / (russian_words.length : ℚ)
      let common_score := min (common_ratio * 2) 1
      let avg_length : ℚ := ((russian_words.map List.length).sum : ℚ) / (russian_words.length : ℚ)
      let length_score := min (avg_length / 5) 1
      common_score * (1/2) + length_score * (1/2)
  else 0

/-- `LanguageDetector.assess_quality`.  Python's `if not text.strip()`
holds exactly when every character of the text is whitespace. -/
def assess_quality (spell_ru spell_en : List Char → Bool) (t : List Char) : ℚ :=
  if t.all pyIsSpace then 0
  else
    let base_score := calculate_base_score t
    let spell_penalty := calculate_spell_penalty spell_ru spell_en t
    let context_bonus := calculate_context_bonus t
    let final_score := (base_score * (7/10) + context_bonus * (3/10)) * spell_penalty
    min (max final_score 0) 1

/-- `LanguageDetector.is_transliteration`. -/
def is_transliteration (t : List Char) : Bool :=
  let russian_words := cyrTokens t
  if russian_words = [] then false
  else
    let total_words := russian_words.length
    let word_lengths := russian_words.map List.length
    let avg_length : ℚ := (word_lengths.sum : ℚ) / (total_words : ℚ)
    let very_short : ℚ := (word_lengths.countP (fun l => l ≤ 2) : ℚ) / (total_words : ℚ)
    let very_long : ℚ := (word_lengths.countP (fun l => l ≥ 5) : ℚ) / (total_words : ℚ)
    let common_russian_count := russian_words.countP isCommonWord
    let common_ratio : ℚ := (common_russian_count : ℚ) / (total_words : ℚ)
    if common_ratio > 2/5 then false
    else
      let criteria_met : Nat :=
        (if very_short > MAX_VERY_SHORT_WORDS then 1 else 0) +
        (if avg_length < MIN_AVG_WORD_LENGTH then 1 else 0) +
        (if very_long < MIN_VERY_LONG_WORDS then 1 else 0)
      decide (criteria_met ≥ 2)

/-- `transcription_segment.TranscriptionSegment`: a time span plus text. -/
structure TranscriptionSegment where
  start_time : ℚ
  end_time : ℚ
  text : List Char
deriving DecidableEq, Inhabited

/-- `SegmentMerger.OVERLAP_THRESHOLD` (0.5). -/
def OVERLAP_THRESHOLD : ℚ := 1/2

/-- `SegmentMerger.MERGE_GAP_THRESHOLD` (0.3). -/
def MERGE_GAP_THRESHOLD : ℚ := 3/10

/-- `SegmentMerger.MIN_QUALITY_THRESHOLD` (0.50). -/
def MIN_QUALITY_THRESHOLD : ℚ := 1/2

/-- `SegmentMerger.calculate_overlap`. -/
def calculate_overlap (seg1 seg2 : TranscriptionSegment) : ℚ :=
  let intersection_start := max seg1.start_time seg2.start_time
  let intersection_end := min seg1.end_time seg2.end_time
  if intersection_end ≤ intersection_start then 0
  else
    let intersection := intersection_end - intersection_start
    let min_duration := min (seg1.end_time - seg1.start_time) (seg2.end_time - seg2.start_time)
    if min_duration ≤ 0 then 0
    else intersection / min_duration

/-- `SegmentMerger._get_avg_word_length`.  The source re-checks
`re.search(r'[а-яА-ЯёЁ]', text)` on the raw text; its two final branches
under the filter both return the same filtered average (the source's
`all(len(w) <= 4 ...)` test is kept to mirror the control flow). -/
def get_avg_word_length (t : List Char) : ℚ :=
  let words := alphaTokens t
  if words = [] then 0
  else if t.any isCyrillicLetter then
    let filtered_words := words.filter (fun w => !isCommonWord w)
    if filtered_words = [] then
      ((words.map List.length).sum : ℚ) / (words.length : ℚ)
    else if filtered_words.all (fun w => w.length ≤ 4) then
      ((filtered_words.map List.length).sum : ℚ) / (filtered_words.length : ℚ)
    else
      ((filtered_words.map List.length).sum : ℚ) / (filtered_words.length : ℚ)
  else
    ((words.map List.length).sum : ℚ) / (words.length : ℚ)

/-- `SegmentMerger._get_short_word_ratio`. -/
def get_short_word_ratio (t : List Char) : ℚ :=
  let words := alphaTokens t
  if words = [] then 0
  else if t.any isCyrillicLetter then
    let filtered_words := words.filter (fun w => !isCommonWord w)
    if filtered_words = [] then 1
    else
      let short_count := filtered_words.countP (fun w => w.length ≤ 3)
      (short_count : ℚ) / (filtered_words.length : ℚ)
  else
    let short_count := words.countP (fun w => w.length ≤ 3)
    (short_count : ℚ) / (words.length : ℚ)

/-- `SegmentMerger.text_similarity` (word-set Jaccard similarity;
`set(...)` is modelled by deduplication, intersection and union by
filtered concatenation of the deduplicated token lists). -/
def text_similarity (text1 text2 : List Char) : ℚ :=
  if text1 = text2 then 1
  else
    let words1 := (pySplit (text1.map pyLower)).dedup
    let words2 := (pySplit (text2.map pyLower)).dedup
    if words1 = [] ∨ words2 = [] then (if text1 = text2 then 1 else 0)
    else
      let intersection := (words1.filter (fun w => words2.contains w)).length
      let union := (words1 ++ words2.filter (fun w => !words1.contains w)).length
      if union > 0 then (intersection : ℚ) / (union : ℚ) else 0

/-- `SegmentMerger.select_best_segment`.  The priority-ordered rules of
the source; `rest` is the tail of rules 2–6 that both the fall-through
of the pure-Russian rule and the non-Russian case continue into. -/
def select_best_segment (spell_ru spell_en : List Char → Bool)
    (seg_ru seg_en : TranscriptionSegment) : TranscriptionSegment :=
  let lang_ru := detect_language seg_ru.text
  let lang_en := detect_language seg_en.text
  let quality_ru := assess_quality spell_ru spell_en seg_ru.text
  let quality_en := assess_quality spell_ru spell_en seg_en.text
  let is_transliteration_ru := is_transliteration seg_ru.text
  let is_transliteration_en := is_transliteration seg_en.text
  let ru_avg_len := get_avg_word_length seg_ru.text
  let en_avg_len := get_avg_word_length seg_en.text
  let ru_short_ratio := get_short_word_ratio seg_ru.text
  let rest : TranscriptionSegment :=
    if lang_ru = .ru ∧ is_transliteration_ru then seg_en
    else if lang_ru = .ru ∧ lang_en = .ru then
      (if is_transliteration_en ∧ ¬ is_transliteration_ru then seg_ru else seg_ru)
    else if lang_en = .en ∧ ¬ is_transliteration_en ∧ (lang_ru = .en ∨ lang_ru = .mixed) then seg_en
    else if is_transliteration_ru ∧ ¬ is_transliteration_en then seg_en
    else if quality_ru ≥ quality_en then seg_ru else seg_en
  if quality_ru < MIN_QUALITY_THRESHOLD ∧ quality_en ≥ quality_ru then seg_en
  else if quality_en > quality_ru + 1/4 then seg_en
  else if lang_ru = .ru ∧ ¬ is_transliteration_ru then
    (if ru_avg_len > 9/2 ∧ quality_ru ≥ MIN_QUALITY_THRESHOLD then seg_ru
     else if ru_avg_len < 7/2 ∧ en_avg_len > 4 ∧ ru_short_ratio > 7/10 then seg_en
     else rest)
  else rest

/-- One step of the candidate scan of
`SegmentMerger._find_corresponding_segment`: the loop state is
`(best index so far, best_overlap, best_quality)`. -/
def find_corresponding_step (spell_ru spell_en : List Char → Bool)
    (ru_segment : TranscriptionSegment) (overlap_threshold : ℚ)
    (best : Option Nat × ℚ × ℚ) (ie : Nat × TranscriptionSegment) :
    Option Nat × ℚ × ℚ :=
  let overlap := calculate_overlap ru_segment ie.2
  if overlap > overlap_threshold then
    let en_quality := assess_quality spell_ru spell_en ie.2.text
    let combined_score := overlap * (3/5) + en_quality * (2/5)
    if combined_score > best.2.1 * (3/5) + best.2.2 * (2/5) then
      (some ie.1, overlap, en_quality)
    else best
  else best

/-- `SegmentMerger._find_corresponding_segment`, returning the index of
the winning EN segment (the source returns the segment object and the
caller recovers its index with `segments_en.index`, which under Python's
identity equality is the loop index at which it was found). -/
def find_corresponding_segment (spell_ru spell_en : List Char → Bool)
    (ru_segment : TranscriptionSegment) (en_segments : List TranscriptionSegment)
    (overlap_threshold : ℚ) : Option Nat :=
  (en_segments.enum.foldl
    (find_corresponding_step spell_ru spell_en ru_segment overlap_threshold)
    ((none : Option Nat), (0 : ℚ), (0 : ℚ))).1

/-- The per-RU pairing decisions of `SegmentMerger.merge_overlapping_pairs`. -/
def stepA_pairings (spell_ru spell_en : List Char → Bool)
    (segments_ru segments_en : List TranscriptionSegment) : List (Option Nat) :=
  segments_ru.map
    (fun r => find_corresponding_segment spell_ru spell_en r segments_en OVERLAP_THRESHOLD)

/-- The `used_en_indices` set built by `SegmentMerger.merge_overlapping_pairs`
(only read by the unpaired-EN append pass). -/
def stepA_used (spell_ru spell_en : List Char → Bool)
    (segments_ru segments_en : List TranscriptionSegment) : List Nat :=
  (stepA_pairings spell_ru spell_en segments_ru segments_en).filterMap id

/-- The quality gate an unpaired EN segment must pass to be appended. -/
def en_gate (spell_ru spell_en : List Char → Bool) (e : TranscriptionSegment) : Bool :=
  decide (detect_language e.text = .en) && !(is_transliteration e.text) &&
    decide (assess_quality spell_ru spell_en e.text > 1/2)

/-- The indices of the EN segments the unpaired-EN pass appends. -/
def stepA_unpaired_indices (spell_ru spell_en : List Char → Bool)
    (segments_ru segments_en : List TranscriptionSegment) : List Nat :=
  (segments_en.enum.filter
    (fun p => !(stepA_used spell_ru spell_en segments_ru segments_en).contains p.1 &&
      en_gate spell_ru spell_en p.2)).map (fun p => p.1)

/-- `SegmentMerger.merge_overlapping_pairs` (Step A): the per-RU winners
in RU order, followed by the gate-passing unpaired EN segments in EN
order.  The source interleaves building `used_en_indices` with the first
loop, but only reads it in the second loop, so computing the pairings
first is equivalent. -/
def merge_overlapping_pairs (spell_ru spell_en : List Char → Bool)
    (segments_ru segments_en : List TranscriptionSegment) : List TranscriptionSegment :=
  (segments_ru.zip (stepA_pairings spell_ru spell_en segments_ru segments_en)).map
    (fun p => match p.2 with
      | some i => select_best_segment spell_ru spell_en p.1 (segments_en.getD i default)
      | none => p.1)
  ++ (segments_en.enum.filter
    (fun p => !(stepA_used spell_ru spell_en segments_ru segments_en).contains p.1 &&
      en_gate spell_ru spell_en p.2)).map (fun p => p.2)

/-- The absorption condition of `SegmentMerger.merge_adjacent_identical`
as the source implements it: byte-identical text and a gap
`seg.start_time - last.end_time` in the *closed* interval
`[0, MERGE_GAP_THRESHOLD]` (the source's chained comparison
`0 <= seg.start_time - last.end_time <= SegmentMerger.MERGE_GAP_THRESHOLD`). -/
def mergeable (last seg : TranscriptionSegment) : Prop :=
  seg.text = last.text ∧ 0 ≤ seg.start_time - last.end_time ∧
    seg.start_time - last.end_time ≤ MERGE_GAP_THRESHOLD

instance (last seg : TranscriptionSegment) : Decidable (mergeable last seg) := by
  unfold mergeable; infer_instance

/-- The inner walk of `SegmentMerger.merge_adjacent_identical`: `last` is
`merged[-1]`, the segment the next absorbed duplicate extends. -/
def merge_adjacent_aux (last : TranscriptionSegment) :
    List TranscriptionSegment → List TranscriptionSegment
  | [] => [last]
  | seg :: rest =>
    if mergeable last seg then
      merge_adjacent_aux { last with end_time := seg.end_time } rest
    else
      last :: merge_adjacent_aux seg rest

/-- `SegmentMerger.merge_adjacent_identical` (Step B). -/
def merge_adjacent_identical : List TranscriptionSegment → List TranscriptionSegment
  | [] => []
  | seg :: rest => merge_adjacent_aux seg rest

/-- The containment-plus-similarity test of
`SegmentMerger.remove_complete_duplicates`: `seg_j` fully contains
`seg_i` in time and their texts are more than 0.8 similar. -/
def is_contained_dup (seg_i seg_j : TranscriptionSegment) : Prop :=
  seg_j.start_time ≤ seg_i.start_time ∧ seg_i.end_time ≤ seg_j.end_time ∧
    text_similarity seg_i.text seg_j.text > 4/5

instance (seg_i seg_j : TranscriptionSegment) : Decidable (is_contained_dup seg_i seg_j) := by
  unfold is_contained_dup; infer_instance

/-- The inner scan of `SegmentMerger.remove_complete_duplicates`: does a
not-yet-used other index `j` witness that index `i` is a duplicate? -/
def dup_witness (segments : List TranscriptionSegment) (used : List Nat) (i : Nat) : Prop :=
  ∃ j ∈ List.range segments.length, j ≠ i ∧ j ∉ used ∧
    is_contained_dup (segments.getD i default) (segments.getD j default)

instance (segments : List TranscriptionSegment) (used : List Nat) (i : Nat) :
    Decidable (dup_witness segments used i) := by
  unfold dup_witness; infer_instance

/-- The index loop of `SegmentMerger.remove_complete_duplicates`, with a
fuel argument (the loop runs `i` over `range(len(segments))`, so fuel
`segments.length` from `i = 0` reproduces it exactly). -/
def remove_dup_aux (segments : List TranscriptionSegment) :
    Nat → Nat → List Nat → List TranscriptionSegment
  | 0, _, _ => []
  | fuel + 1, i, used =>
    if i < segments.length then
      if i ∈ used then remove_dup_aux segments fuel (i + 1) used
      else if dup_witness segments used i then
        remove_dup_aux segments fuel (i + 1) (i :: used)
      else segments.getD i default :: remove_dup_aux segments fuel (i + 1) used
    else []

/-- `SegmentMerger.remove_complete_duplicates` (Step C). -/
def remove_complete_duplicates (segments : List TranscriptionSegment) :
    List TranscriptionSegment :=
  if segments.length ≤ 1 then segments
  else remove_dup_aux segments segments.length 0 []

/-- The sort key order of `merged.sort(key=lambda s: s.start_time)`. -/
def seg_le (a b : TranscriptionSegment) : Prop := a.start_time ≤ b.start_time

instance : DecidableRel seg_le := fun a b => by unfold seg_le; infer_instance

instance : IsTotal TranscriptionSegment seg_le :=
  ⟨fun a b => le_total a.start_time b.start_time⟩

instance : IsTrans TranscriptionSegment seg_le :=
  ⟨fun _ _ _ h1 h2 => le_trans h1 h2⟩

/-- `SegmentMerger.merge_segments`: Step A, then Step B, then Step C,
then the ascending stable sort by `start_time` (Python's `list.sort` is
stable; a stable insertion sort by the same key computes the same list). -/
def merge_segments (spell_ru spell_en : List Char → Bool)
    (segments_ru segments_en : List TranscriptionSegment) : List TranscriptionSegment :=
  if segments_ru = [] ∧ segments_en = [] then []
  else
    List.insertionSort seg_le
      (remove_complete_duplicates
        (merge_adjacent_identical
          (merge_overlapping_pairs spell_ru spell_en segments_ru segments_en)))

/-! ### Concrete inputs used to settle individual claims.

The spell-checker oracle `all_words_known` models dictionaries that
contain every word occurring in the concrete texts below (all of which
are ordinary Russian or English dictionary words), so the spelling
penalty is 1 on them. -/

/-- A dictionary oracle under which no word is misspelled. -/
def all_words_known : List Char → Bool := fun _ => true

/-- Ten ordinary English words: quality gate material (quality 0.7). -/
def en_long_text : List Char :=
  "wonderful amazing fantastic brilliant excellent gorgeous delightful charming graceful splendid".data

/-- Five four-letter Russian non-lexicon words: pure Russian, not
transliteration, filtered average word length exactly 4. -/
def ru_mid_text : List Char := "жаба шуба жаба шуба жаба".data

/-- Five seven-letter Russian non-lexicon words: pure Russian with
filtered average word length 7 and quality 0.738. -/
def ru_long_text : List Char := "столица держава столица держава столица".data

/-- The RU-side segment of the C2 counterexample. -/
def ru_mid_seg : TranscriptionSegment := ⟨0, 1, ru_mid_text⟩

/-- The RU-side segment of the C2 witness. -/
def ru_long_seg : TranscriptionSegment := ⟨0, 1, ru_long_text⟩

/-- An EN segment carrying `en_long_text` on the span [0, 1]. -/
def en_long_seg : TranscriptionSegment := ⟨0, 1, en_long_text⟩

/-- First low-quality RU segment of the C1 counterexample, fully
overlapping `en_long_seg`. -/
def cex_ru1 : TranscriptionSegment := ⟨0, 1, "б".data⟩

/-- Second low-quality RU segment of the C1 counterexample, also
overlapping `en_long_seg` with ratio 1. -/
def cex_ru2 : TranscriptionSegment := ⟨1/20, 1, "г".data⟩

/-- A second RU segment for the C7 counterexample, sitting after
`en_long_seg` in the RU stream. -/
def cex_b7 : TranscriptionSegment := ⟨5, 6, "zzz".data⟩

/-- An unpaired EN segment for the C7 counterexample: it passes the
quality gate, carries the same text as `en_long_seg`, and starts 0.1 s
after `en_long_seg` ends. -/
def cex_e7 : TranscriptionSegment := ⟨11/10, 2, en_long_text⟩

section Claims

/-! ### C9 — properties of `calculate_overlap` -/

/-- C9: for every pair of segments, `calculate_overlap` is symmetric,
its result lies in [0,1], it is 0 when the time spans do not intersect,
and it is 0 whenever either segment has duration ≤ 0 (the guards return
0 before any division can happen). -/
theorem calculate_overlap_props (seg1 seg2 : TranscriptionSegment) :
    calculate_overlap seg1 seg2 = calculate_overlap seg2 seg1 ∧
    0 ≤ calculate_overlap seg1 seg2 ∧ calculate_overlap seg1 seg2 ≤ 1 ∧
    (seg1.end_time < seg2.start_time ∨ seg2.end_time < seg1.start_time →
      calculate_overlap seg1 seg2 = 0) ∧
    ((seg1.end_time - seg1.start_time ≤ 0 ∨ seg2.end_time - seg2.start_time ≤ 0) →
      calculate_overlap seg1 seg2 = 0) := by
  refine ⟨?_, ?_, ?_, ?_, ?_⟩
  · unfold calculate_overlap
    rw [max_comm seg1.start_time seg2.start_time, min_comm seg1.end_time seg2.end_time,
      min_comm (seg1.end_time - seg1.start_time) (seg2.end_time - seg2.start_time)]
  · simp only [calculate_overlap]
    split_ifs with h1 h2
    · exact le_refl 0
    · exact le_refl 0
    · push_neg at h1 h2
      exact div_nonneg (by linarith) (le_of_lt h2)
  · simp only [calculate_overlap]
    split_ifs with h1 h2
    · exact zero_le_one
    · exact zero_le_one
    · push_neg at h1 h2
      rw [div_le_one h2]
      refine le_min ?_ ?_
      · exact sub_le_sub (min_le_left _ _) (le_max_left _ _)
      · exact sub_le_sub (min_le_right _ _) (le_max_right _ _)
  · intro h
    simp only [calculate_overlap]
    split_ifs with h1 h2
    · rfl
    · rfl
    · exfalso
      push_neg at h1
      rcases h with h | h
      · have := min_le_left seg1.end_time seg2.end_time
        have := le_max_right seg1.start_time seg2.start_time
        linarith
      · have := min_le_right seg1.end_time seg2.end_time
        have := le_max_left seg1.start_time seg2.start_time
        linarith
  · intro h
    simp only [calculate_overlap]
    split_ifs with h1 h2
    · rfl
    · rfl
    · exfalso
      push_neg at h2
      rcases h with h | h
      · have := min_le_left (seg1.end_time - seg1.start_time) (seg2.end_time - seg2.start_time)
        linarith
      · have := min_le_right (seg1.end_time - seg1.start_time) (seg2.end_time - seg2.start_time)
        linarith

/-- Witness for C9: at a zero-duration first segment disjoint from the
second, the overlap is 0 by the claim's fourth conjunct. -/
theorem calculate_overlap_props_witness :
    calculate_overlap ⟨0, 0, "a".data⟩ ⟨1, 2, "b".data⟩ = 0 :=
  (calculate_overlap_props ⟨0, 0, "a".data⟩ ⟨1, 2, "b".data⟩).2.2.2.1
    (Or.inl (by norm_num))

/-! ### C8 — range of `assess_quality` -/

/-- C8: for every dictionary oracle and every text, `assess_quality`
returns a value in [0,1] (the final score is clamped), and for every
empty or whitespace-only text (Python's `not text.strip()`) it returns
exactly 0. -/
theorem assess_quality_range (spell_ru spell_en : List Char → Bool) (t : List Char) :
    0 ≤ assess_quality spell_ru spell_en t ∧
    assess_quality spell_ru spell_en t ≤ 1 ∧
    (t.all pyIsSpace = true → assess_quality spell_ru spell_en t = 0) := by
  unfold assess_quality
  split_ifs with h
  · exact ⟨le_refl 0, zero_le_one, fun _ => rfl⟩
  · refine ⟨le_min (le_max_right _ _) zero_le_one, min_le_right _ _, fun hh => absurd hh h⟩

/-- Witness for C8: the single-space text is whitespace-only and scores 0. -/
theorem assess_quality_range_witness :
    assess_quality all_words_known all_words_known " ".data = 0 :=
  (assess_quality_range all_words_known all_words_known " ".data).2.2 (by rfl)

/-! ### C3 — `is_transliteration` on few Cyrillic tokens -/

/-- Counterexample to C3: the text `"бг"` has a single Cyrillic word
token (fewer than 3), yet `is_transliteration` returns `true` — the
source only short-circuits on an *empty* token list (`if not
russian_words`), not on fewer than 3 tokens, and one short token meets
all three transliteration criteria. -/
theorem is_transliteration_few_tokens_cex :
    (cyrTokens "бг".data).length = 1 ∧ (1 : Nat) < 3 ∧
    is_transliteration "бг".data = true := by
  refine ⟨by with_unfolding_all rfl, by norm_num, by with_unfolding_all rfl⟩

/-- C3 amended: only when the extracted Cyrillic word-token list is
*empty* does `is_transliteration` short-circuit to `false`. -/
theorem is_transliteration_no_tokens (t : List Char) (h : cyrTokens t = []) :
    is_transliteration t = false := by
  unfold is_transliteration
  rw [h]
  rfl

/-- Witness for C3 amended: a purely Latin text has no Cyrillic tokens
and is not flagged as transliteration. -/
theorem is_transliteration_no_tokens_witness :
    is_transliteration "abc".data = false :=
  is_transliteration_no_tokens "abc".data (by with_unfolding_all rfl)

/-! ### C5 — the filtered word statistics and their fallbacks -/

/-- The average token length of a token list (the statistic named by the
claim). -/
def avg_len_of (ws : List (List Char)) : ℚ :=
  ((ws.map List.length).sum : ℚ) / (ws.length : ℚ)

/-- The share of tokens of length ≤ 3 in a token list (the statistic
named by the claim). -/
def short_ratio_of (ws : List (List Char)) : ℚ :=
  (ws.countP (fun w => w.length ≤ 3) : ℚ) / (ws.length : ℚ)

/-- Counterexample to C5: on the text `"спасибо"` (a single 7-letter
lexicon word) the common-word filtering empties the token set, and
`_get_short_word_ratio` falls back to the constant 1.0 — not to the
unfiltered statistic, which is 0 here. -/
theorem get_short_word_ratio_fallback_cex :
    (alphaTokens "спасибо".data).filter (fun w => !isCommonWord w) = [] ∧
    get_short_word_ratio "спасибо".data = 1 ∧
    short_ratio_of (alphaTokens "спасибо".data) = 0 ∧
    (1 : ℚ) ≠ 0 := by
  refine ⟨by with_unfolding_all rfl, by with_unfolding_all rfl,
    by with_unfolding_all rfl, by norm_num⟩

/-- C5 amended: on Cyrillic-containing text both statistics are computed
over the alphabetic tokens with common-lexicon entries removed; when the
filtering empties the token set, `_get_avg_word_length` falls back to the
unfiltered average, while `_get_short_word_ratio` falls back to the
constant 1.0 (not to the unfiltered ratio). -/
theorem word_stats_filtering (t : List Char) (hc : t.any isCyrillicLetter = true) :
    ((alphaTokens t).filter (fun w => !isCommonWord w) ≠ [] →
      get_avg_word_length t = avg_len_of ((alphaTokens t).filter (fun w => !isCommonWord w)) ∧
      get_short_word_ratio t = short_ratio_of ((alphaTokens t).filter (fun w => !isCommonWord w))) ∧
    (alphaTokens t ≠ [] → (alphaTokens t).filter (fun w => !isCommonWord w) = [] →
      get_avg_word_length t = avg_len_of (alphaTokens t) ∧
      get_short_word_ratio t = 1) := by
  constructor
  · intro hf
    have hw : alphaTokens t ≠ [] := by
      intro h
      exact hf (by rw [h]; rfl)
    constructor
    · unfold get_avg_word_length avg_len_of
      rw [if_neg hw, if_pos hc, if_neg hf]
      split_ifs <;> rfl
    · unfold get_short_word_ratio short_ratio_of
      rw [if_neg hw, if_pos hc, if_neg hf]
  · intro hw hf
    constructor
    · unfold get_avg_word_length avg_len_of
      rw [if_neg hw, if_pos hc, if_pos hf]
    · unfold get_short_word_ratio
      rw [if_neg hw, if_pos hc, if_pos hf]

/-- Witness for C5 amended: on `"спасибо"` the filter empties the token
set, the average falls back to the unfiltered average 7, and the short
ratio to 1. -/
theorem word_stats_filtering_witness :
    get_avg_word_length "спасибо".data = avg_len_of (alphaTokens "спасибо".data) ∧
    get_short_word_ratio "спасибо".data = 1 :=
  (word_stats_filtering "спасибо".data (by with_unfolding_all rfl)).2
    (by with_unfolding_all decide) (by with_unfolding_all rfl)

/-! ### C4 — the adjacent-identical merge and its gap boundary -/

/-- The head of `merge_adjacent_aux last l` always carries `last`'s
`start_time` and `text` (only its `end_time` may have been extended). -/
theorem merge_adjacent_aux_head (l : List TranscriptionSegment) :
    ∀ last : TranscriptionSegment, ∃ hd tl, merge_adjacent_aux last l = hd :: tl ∧
      hd.start_time = last.start_time ∧ hd.text = last.text := by
  induction l with
  | nil => exact fun last => ⟨last, [], rfl, rfl, rfl⟩
  | cons seg rest ih =>
    intro last
    unfold merge_adjacent_aux
    split_ifs with h
    · obtain ⟨hd, tl, heq, h1, h2⟩ := ih { last with end_time := seg.end_time }
      exact ⟨hd, tl, heq, h1, h2⟩
    · exact ⟨last, merge_adjacent_aux seg rest, rfl, rfl, rfl⟩

/-- No two consecutive segments of the output of `merge_adjacent_aux`
still satisfy the absorption condition. -/
theorem merge_adjacent_aux_chain (l : List TranscriptionSegment) :
    ∀ last : TranscriptionSegment,
      List.Chain' (fun a b => ¬ mergeable a b) (merge_adjacent_aux last l) := by
  induction l with
  | nil => intro last; simp [merge_adjacent_aux]
  | cons seg rest ih =>
    intro last
    unfold merge_adjacent_aux
    split_ifs with h
    · exact ih _
    · obtain ⟨hd, tl, heq, h1, h2⟩ := merge_adjacent_aux_head rest seg
      rw [heq]
      refine List.Chain'.cons ?_ (heq ▸ ih seg)
      intro hm
      exact h ⟨h2 ▸ hm.1, h1 ▸ hm.2.1, h1 ▸ hm.2.2⟩

/-- Counterexample to C4: with identical text and a gap of *exactly* 0.3
seconds (`1.3 - 1.0`), the source's inclusive comparison `<= 0.3` does
merge the two segments, while the claim's half-open interval `[0, 0.3)`
says a gap of exactly 0.3 must not merge. -/
theorem merge_adjacent_identical_boundary_cex :
    merge_adjacent_identical [⟨0, 1, "ab".data⟩, ⟨13/10, 2, "ab".data⟩] =
      [⟨0, 2, "ab".data⟩] ∧
    (13/10 : ℚ) - 1 = MERGE_GAP_THRESHOLD := by
  refine ⟨by with_unfolding_all rfl, by with_unfolding_all rfl⟩

/-- C4 amended: walking the list in order, a segment is absorbed into the
previously kept segment (whose `end_time` is extended to the absorbed
segment's) exactly when its text is byte-identical to the kept segment's
and the gap lies in the *closed* interval `[0, 0.3]`; consequently no
consecutive pair of the output still satisfies that condition. -/
theorem merge_adjacent_identical_absorbs_iff :
    (∀ s1 s2 : TranscriptionSegment,
      (mergeable s1 s2 →
        merge_adjacent_identical [s1, s2] = [⟨s1.start_time, s2.end_time, s1.text⟩]) ∧
      (¬ mergeable s1 s2 → merge_adjacent_identical [s1, s2] = [s1, s2])) ∧
    (∀ l, List.Chain' (fun a b => ¬ mergeable a b) (merge_adjacent_identical l)) := by
  constructor
  · intro s1 s2
    constructor
    · intro h
      unfold merge_adjacent_identical merge_adjacent_aux
      rw [if_pos h]
      rfl
    · intro h
      unfold merge_adjacent_identical merge_adjacent_aux
      rw [if_neg h]
      rfl
  · intro l
    cases l with
    | nil => simp [merge_adjacent_identical]
    | cons seg rest => exact merge_adjacent_aux_chain rest seg

/-- Witness for C4 amended: a gap of 0.1 with identical text is absorbed
into one extended segment. -/
theorem merge_adjacent_identical_absorbs_iff_witness :
    merge_adjacent_identical [⟨0, 1, "ab".data⟩, ⟨11/10, 2, "ab".data⟩] =
      [⟨0, 2, "ab".data⟩] :=
  (merge_adjacent_identical_absorbs_iff.1 ⟨0, 1, "ab".data⟩ ⟨11/10, 2, "ab".data⟩).1
    (by with_unfolding_all decide)

/-! ### C2 — the pure-Russian rule of `select_best_segment` -/

/-- Counterexample to C2: `ru_mid_seg` is pure Russian (language `ru`,
not transliteration), neither of the two earlier quality rules decides
(its quality is 0.666 ≥ 0.5 and the EN quality 0.7 exceeds it by less
than 0.25), and the hidden-transliteration condition is false (its
filtered average word length is 4, neither < 3.5 nor > 4.5) — yet
`select_best_segment` chooses EN (by falling through to the default
quality comparison), where the claim says RU must be chosen. -/
theorem select_best_segment_fallthrough_cex :
    detect_language ru_mid_seg.text = Lang.ru ∧
    is_transliteration ru_mid_seg.text = false ∧
    ¬ (assess_quality all_words_known all_words_known ru_mid_seg.text < MIN_QUALITY_THRESHOLD ∧
        assess_quality all_words_known all_words_known en_long_seg.text ≥
          assess_quality all_words_known all_words_known ru_mid_seg.text) ∧
    ¬ (assess_quality all_words_known all_words_known en_long_seg.text >
        assess_quality all_words_known all_words_known ru_mid_seg.text + 1/4) ∧
    ¬ (get_avg_word_length ru_mid_seg.text < 7/2 ∧ get_avg_word_length en_long_seg.text > 4 ∧
        get_short_word_ratio ru_mid_seg.text > 7/10) ∧
    select_best_segment all_words_known all_words_known ru_mid_seg en_long_seg = en_long_seg ∧
    en_long_seg ≠ ru_mid_seg := by
  with_unfolding_all decide

/-- C2 amended: for a paired RU/EN pair not decided by the two earlier
quality rules, if RU is pure Russian (language `ru`, not
transliteration) then RU is chosen only when additionally its filtered
average word length exceeds 4.5 and its quality is at least 0.5; EN is
chosen when the hidden-transliteration condition holds (RU filtered
average < 3.5, EN filtered average > 4.0, RU short-word ratio > 0.7);
in all remaining cases the decision falls through to the later rules. -/
theorem select_best_segment_pure_russian_rules
    (spell_ru spell_en : List Char → Bool) (seg_ru seg_en : TranscriptionSegment)
    (h1 : ¬ (assess_quality spell_ru spell_en seg_ru.text < MIN_QUALITY_THRESHOLD ∧
        assess_quality spell_ru spell_en seg_en.text ≥ assess_quality spell_ru spell_en seg_ru.text))
    (h2 : ¬ (assess_quality spell_ru spell_en seg_en.text >
        assess_quality spell_ru spell_en seg_ru.text + 1/4))
    (h3 : detect_language seg_ru.text = Lang.ru)
    (h4 : is_transliteration seg_ru.text = false) :
    (get_avg_word_length seg_ru.text > 9/2 ∧
        assess_quality spell_ru spell_en seg_ru.text ≥ MIN_QUALITY_THRESHOLD →
      select_best_segment spell_ru spell_en seg_ru seg_en = seg_ru) ∧
    (get_avg_word_length seg_ru.text < 7/2 ∧ get_avg_word_length seg_en.text > 4 ∧
        get_short_word_ratio seg_ru.text > 7/10 →
      select_best_segment spell_ru spell_en seg_ru seg_en = seg_en) := by
  have h3' : detect_language seg_ru.text = Lang.ru ∧ ¬ (is_transliteration seg_ru.text = true) :=
    ⟨h3, by simp [h4]⟩
  constructor
  · intro hc
    simp only [select_best_segment]
    rw [if_neg h1, if_neg h2, if_pos h3', if_pos hc]
  · intro hc
    have hn : ¬ (get_avg_word_length seg_ru.text > 9/2 ∧
        assess_quality spell_ru spell_en seg_ru.text ≥ MIN_QUALITY_THRESHOLD) := by
      rintro ⟨ha, -⟩
      have := hc.1
      linarith
    simp only [select_best_segment]
    rw [if_neg h1, if_neg h2, if_pos h3', if_neg hn, if_pos hc]

/-- Witness for C2 amended: `ru_long_seg` is pure Russian with filtered
average word length 7 > 4.5 and quality 0.738 ≥ 0.5, so RU is chosen. -/
theorem select_best_segment_pure_russian_rules_witness :
    select_best_segment all_words_known all_words_known ru_long_seg en_long_seg = ru_long_seg :=
  (select_best_segment_pure_russian_rules all_words_known all_words_known ru_long_seg en_long_seg
      (by with_unfolding_all decide) (by with_unfolding_all decide)
      (by with_unfolding_all rfl) (by with_unfolding_all rfl)).1
    (by with_unfolding_all decide)

/-! ### C1 — EN segments can be consumed by several RU pairings -/

/-- Counterexample to C1: the pairing search of Step A never consults
`used_en_indices`, so the single EN segment is selected as the
correspondent (and, both RU segments being low-quality, as the winner)
for *both* distinct RU segments, and appears twice in Step A's result. -/
theorem stepA_en_consumed_twice_cex :
    stepA_pairings all_words_known all_words_known [cex_ru1, cex_ru2] [en_long_seg] =
      [some 0, some 0] ∧
    cex_ru1 ≠ cex_ru2 ∧
    merge_overlapping_pairs all_words_known all_words_known [cex_ru1, cex_ru2] [en_long_seg] =
      [en_long_seg, en_long_seg] := by
  with_unfolding_all decide

/-- C1 amended: `used_en_indices` only prevents an EN segment that was
paired with some RU segment from being appended *again* by the
unpaired-EN pass; the pairing search itself may hand the same EN segment
to several distinct RU segments. -/
theorem stepA_paired_not_reappended (spell_ru spell_en : List Char → Bool)
    (segments_ru segments_en : List TranscriptionSegment) (k : Nat)
    (h : some k ∈ stepA_pairings spell_ru spell_en segments_ru segments_en) :
    k ∉ stepA_unpaired_indices spell_ru spell_en segments_ru segments_en := by
  intro hk
  have hused : k ∈ stepA_used spell_ru spell_en segments_ru segments_en :=
    List.mem_filterMap.mpr ⟨some k, h, rfl⟩
  unfold stepA_unpaired_indices at hk
  obtain ⟨p, hp, hpk⟩ := List.mem_map.mp hk
  have hcond := (List.mem_filter.mp hp).2
  rw [Bool.and_eq_true] at hcond
  have hnc := hcond.1
  rw [Bool.not_eq_true'] at hnc
  have hmem : p.1 ∈ stepA_used spell_ru spell_en segments_ru segments_en := hpk ▸ hused
  simp only [List.contains] at hnc
  rw [List.elem_iff.mpr hmem] at hnc
  exact Bool.true_eq_false.mp hnc

/-- Witness for C1 amended: EN index 0 is paired (twice) in the C1
scenario and is therefore not appended by the unpaired-EN pass. -/
theorem stepA_paired_not_reappended_witness :
    0 ∉ stepA_unpaired_indices all_words_known all_words_known [cex_ru1, cex_ru2] [en_long_seg] :=
  stepA_paired_not_reappended all_words_known all_words_known [cex_ru1, cex_ru2] [en_long_seg] 0
    (by with_unfolding_all decide)

/-! ### C6 — the merged output is sorted and free of contained duplicates -/

/-- The symmetric no-contained-duplicate relation between two output
segments: neither is a time-contained duplicate of the other. -/
def nodup_rel (a b : TranscriptionSegment) : Prop :=
  ¬ is_contained_dup a b ∧ ¬ is_contained_dup b a

/-- Invariants of the `remove_complete_duplicates` loop: every produced
segment comes from a not-yet-visited index, every produced segment was
screened against every unused earlier index, and the output is pairwise
free of contained duplicates. -/
theorem remove_dup_aux_spec (segments : List TranscriptionSegment) :
    ∀ (fuel i : Nat) (used : List Nat), (∀ u ∈ used, u < i) →
      (∀ x ∈ remove_dup_aux segments fuel i used,
        ∃ k, i ≤ k ∧ k < segments.length ∧ x = segments.getD k default) ∧
      (∀ x ∈ remove_dup_aux segments fuel i used, ∀ j, j < segments.length → j ∉ used → j < i →
        ¬ is_contained_dup x (segments.getD j default)) ∧
      List.Pairwise nodup_rel (remove_dup_aux segments fuel i used) := by
  intro fuel
  induction fuel with
  | zero =>
    intro i used _
    refine ⟨?_, ?_, ?_⟩ <;> simp [remove_dup_aux]
  | succ fuel ih =>
    intro i used hused
    by_cases hi : i < segments.length
    · have hiu : i ∉ used := fun hh => absurd (hused i hh) (lt_irrefl i)
      by_cases hw : dup_witness segments used i
      · have hrec := ih (i + 1) (i :: used) ?husedrec
        case husedrec =>
          intro u hu
          rcases List.mem_cons.mp hu with rfl | hu
          · exact Nat.lt_succ_self u
          · exact Nat.lt_succ_of_lt (hused u hu)
        simp only [remove_dup_aux, if_pos hi, if_neg hiu, if_pos hw]
        refine ⟨?_, ?_, hrec.2.2⟩
        · intro x hx
          obtain ⟨k, hik, hk, hek⟩ := hrec.1 x hx
          exact ⟨k, le_trans (Nat.le_succ i) hik, hk, hek⟩
        · intro x hx j hj hjused hji
          have hjc : j ∉ i :: used := by
            intro hh
            rcases List.mem_cons.mp hh with rfl | hh
            · exact absurd hji (lt_irrefl j)
            · exact hjused hh
          exact hrec.2.1 x hx j hj hjc (Nat.lt_succ_of_lt hji)
      · have hrec := ih (i + 1) used (fun u hu => Nat.lt_succ_of_lt (hused u hu))
        have hscan : ∀ j, j < segments.length → j ≠ i → j ∉ used →
            ¬ is_contained_dup (segments.getD i default) (segments.getD j default) := by
          intro j hj hji hjused hdup
          exact hw ⟨j, List.mem_range.mpr hj, hji, hjused, hdup⟩
        simp only [remove_dup_aux, if_pos hi, if_neg hiu, if_neg hw]
        refine ⟨?_, ?_, ?_⟩
        · intro x hx
          rcases List.mem_cons.mp hx with rfl | hx
          · exact ⟨i, le_refl i, hi, rfl⟩
          · obtain ⟨k, hik, hk, hek⟩ := hrec.1 x hx
            exact ⟨k, le_trans (Nat.le_succ i) hik, hk, hek⟩
        · intro x hx j hj hjused hji
          rcases List.mem_cons.mp hx with rfl | hx
          · exact hscan j hj (Nat.ne_of_lt hji) hjused
          · exact hrec.2.1 x hx j hj hjused (Nat.lt_succ_of_lt hji)
        · rw [List.pairwise_cons]
          refine ⟨?_, hrec.2.2⟩
          intro y hy
          obtain ⟨k, hik, hk, hek⟩ := hrec.1 y hy
          have hki : k ≠ i := by omega
          have hkused : k ∉ used := fun hh => by have := hused k hh; omega
          constructor
          · rw [hek]
            exact hscan k hk hki hkused
          · exact hrec.2.1 y hy i hi hiu (Nat.lt_succ_self i)
    · simp [remove_dup_aux, hi]

/-- The output of Step C is pairwise free of contained duplicates. -/
theorem remove_complete_duplicates_pairwise (segments : List TranscriptionSegment) :
    List.Pairwise nodup_rel (remove_complete_duplicates segments) := by
  unfold remove_complete_duplicates
  split_ifs with h
  · cases segments with
    | nil => exact List.Pairwise.nil
    | cons a t =>
      cases t with
      | nil => simp
      | cons b t' => simp [List.length_cons] at h
  · exact (remove_dup_aux_spec segments segments.length 0 [] (by intro u hu; simp at hu)).2.2

/-- Step C only ever keeps segments of its input. -/
theorem remove_complete_duplicates_subset (segments : List TranscriptionSegment) :
    ∀ x ∈ remove_complete_duplicates segments, x ∈ segments := by
  intro x hx
  unfold remove_complete_duplicates at hx
  split_ifs at hx with h
  · exact hx
  · obtain ⟨k, -, hk, hek⟩ :=
      (remove_dup_aux_spec segments segments.length 0 [] (by intro u hu; simp at hu)).1 x hx
    rw [hek, List.getD_eq_getElem _ _ hk]
    exact List.getElem_mem hk

/-- The merged output is pairwise free of contained duplicates (the
final sort permutes Step C's output, and the relation is symmetric). -/
theorem merge_segments_pairwise (spell_ru spell_en : List Char → Bool)
    (segments_ru segments_en : List TranscriptionSegment) :
    List.Pairwise nodup_rel (merge_segments spell_ru spell_en segments_ru segments_en) := by
  unfold merge_segments
  split_ifs with h
  · exact List.Pairwise.nil
  · exact ((List.perm_insertionSort seg_le _).pairwise_iff
      (fun {a b} hab => ⟨hab.2, hab.1⟩)).mpr (remove_complete_duplicates_pairwise _)

/-- The merged output is sorted ascending by `start_time`. -/
theorem merge_segments_sorted_aux (spell_ru spell_en : List Char → Bool)
    (segments_ru segments_en : List TranscriptionSegment) :
    List.Sorted seg_le (merge_segments spell_ru spell_en segments_ru segments_en) := by
  unfold merge_segments
  split_ifs with h
  · exact List.sorted_nil
  · exact List.sorted_insertionSort seg_le _

/-- C6: for every pair of input streams (and any dictionary oracles),
the output of `merge_segments` is sorted ascending by `start_time`, and
no two of its segments at distinct positions are such that one fully
time-contains the other with word-set Jaccard similarity above 0.8. -/
theorem merge_segments_sorted_nodup (spell_ru spell_en : List Char → Bool)
    (segments_ru segments_en : List TranscriptionSegment) :
    List.Sorted seg_le (merge_segments spell_ru spell_en segments_ru segments_en) ∧
    List.Pairwise nodup_rel (merge_segments spell_ru spell_en segments_ru segments_en) :=
  ⟨merge_segments_sorted_aux spell_ru spell_en segments_ru segments_en,
    merge_segments_pairwise spell_ru spell_en segments_ru segments_en⟩

/-! ### C7 — idempotence of the post-processing steps -/

/-- On input that is already pairwise free of contained duplicates, the
Step C loop keeps everything. -/
theorem remove_dup_aux_id (segments : List TranscriptionSegment)
    (hp : List.Pairwise nodup_rel segments) :
    ∀ fuel i, segments.length ≤ i + fuel →
      remove_dup_aux segments fuel i [] = segments.drop i := by
  intro fuel
  induction fuel with
  | zero =>
    intro i hle
    rw [List.drop_eq_nil_of_le (by omega)]
    rfl
  | succ fuel ih =>
    intro i hle
    by_cases hi : i < segments.length
    · have hpg := List.pairwise_iff_getElem.mp hp
      have hnw : ¬ dup_witness segments [] i := by
        rintro ⟨j, hjr, hji, -, hdup⟩
        have hj := List.mem_range.mp hjr
        rw [List.getD_eq_getElem _ _ hi, List.getD_eq_getElem _ _ hj] at hdup
        rcases Nat.lt_or_ge j i with hji' | hge
        · exact (hpg j i hj hi hji').2 hdup
        · exact (hpg i j hi hj (by omega)).1 hdup
      have hiu : i ∉ ([] : List Nat) := by simp
      simp only [remove_dup_aux, if_pos hi, if_neg hiu, if_neg hnw]
      rw [ih (i + 1) (by omega), List.getD_eq_getElem _ _ hi]
      exact (List.drop_eq_getElem_cons hi).symm
    · rw [List.drop_eq_nil_of_le (le_of_not_lt hi)]
      simp [remove_dup_aux, hi]

/-- Step C is the identity on input that is already pairwise free of
contained duplicates. -/
theorem remove_complete_duplicates_id (segments : List TranscriptionSegment)
    (hp : List.Pairwise nodup_rel segments) :
    remove_complete_duplicates segments = segments := by
  unfold remove_complete_duplicates
  split_ifs with h
  · rfl
  · rw [remove_dup_aux_id segments hp segments.length 0 (by omega)]
    exact List.drop_zero segments

/-- Counterexample to C7: on these inputs the merge keeps the RU segment
on [0,1] and appends the unpaired gate-passing EN segment on [1.1,2]
carrying the *same text*; Step B sees them non-adjacently (the second RU
segment sits between them in Step A order), but the final sort makes
them adjacent, so re-running Steps B–D merges them and changes the
sequence. -/
theorem merge_rerun_steps_bcd_cex :
    merge_segments all_words_known all_words_known [en_long_seg, cex_b7] [cex_e7] =
      [en_long_seg, cex_e7, cex_b7] ∧
    List.insertionSort seg_le (remove_complete_duplicates (merge_adjacent_identical
      (merge_segments all_words_known all_words_known [en_long_seg, cex_b7] [cex_e7]))) ≠
      merge_segments all_words_known all_words_known [en_long_seg, cex_b7] [cex_e7] := by
  constructor
  · with_unfolding_all rfl
  · with_unfolding_all decide

/-- C7 amended: Steps C and D are idempotent on merged output —
re-running `remove_complete_duplicates` followed by the `start_time`
sort on the output of `merge_segments` returns it unchanged; Step B is
*not* idempotent in this sense, because the final sort can make
identical-text segments adjacent that Step B never saw side by side. -/
theorem merge_rerun_steps_cd_id (spell_ru spell_en : List Char → Bool)
    (segments_ru segments_en : List TranscriptionSegment) :
    List.insertionSort seg_le (remove_complete_duplicates
      (merge_segments spell_ru spell_en segments_ru segments_en)) =
      merge_segments spell_ru spell_en segments_ru segments_en := by
  rw [remove_complete_duplicates_id _
    (merge_segments_pairwise spell_ru spell_en segments_ru segments_en)]
  exact (merge_segments_sorted_aux spell_ru spell_en segments_ru segments_en).insertionSort_eq

/-! ### C10 — only `end_time` is ever modified, and only by Step B -/

/-- `select_best_segment` always returns one of its two arguments. -/
theorem select_best_segment_cases (spell_ru spell_en : List Char → Bool)
    (seg_ru seg_en : TranscriptionSegment) :
    select_best_segment spell_ru spell_en seg_ru seg_en = seg_ru ∨
    select_best_segment spell_ru spell_en seg_ru seg_en = seg_en := by
  simp only [select_best_segment]
  split_ifs <;> simp

/-- One scan step of `_find_corresponding_segment` preserves the bound
on the recorded index. -/
theorem find_corresponding_step_bound (spell_ru spell_en : List Char → Bool)
    (ru_segment : TranscriptionSegment) (overlap_threshold : ℚ) (n : Nat)
    (st : Option Nat × ℚ × ℚ) (p : Nat × TranscriptionSegment)
    (hst : ∀ k, st.1 = some k → k < n) (hp : p.1 < n) :
    ∀ k, (find_corresponding_step spell_ru spell_en ru_segment overlap_threshold st p).1 =
      some k → k < n := by
  intro k hk
  simp only [find_corresponding_step] at hk
  split_ifs at hk with h1 h2
  · obtain rfl := Option.some.inj hk
    exact hp
  · exact hst k hk
  · exact hst k hk

/-- The index returned by `_find_corresponding_segment` addresses an
actual EN segment. -/
theorem find_corresponding_segment_bound (spell_ru spell_en : List Char → Bool)
    (ru_segment : TranscriptionSegment) (en_segments : List TranscriptionSegment)
    (overlap_threshold : ℚ) (k : Nat)
    (h : find_corresponding_segment spell_ru spell_en ru_segment en_segments overlap_threshold =
      some k) :
    k < en_segments.length := by
  unfold find_corresponding_segment at h
  have main : ∀ (L : List (Nat × TranscriptionSegment)) (st : Option Nat × ℚ × ℚ),
      (∀ p ∈ L, p.1 < en_segments.length) →
      (∀ k', st.1 = some k' → k' < en_segments.length) →
      ∀ k', (L.foldl (find_corresponding_step spell_ru spell_en ru_segment overlap_threshold)
        st).1 = some k' → k' < en_segments.length := by
    intro L
    induction L with
    | nil => exact fun st _ hst k' hk' => hst k' hk'
    | cons p L ih =>
      intro st hL hst k' hk'
      rw [List.foldl_cons] at hk'
      exact ih _ (fun q hq => hL q (List.mem_cons_of_mem p hq))
        (find_corresponding_step_bound spell_ru spell_en ru_segment overlap_threshold
          en_segments.length st p hst (hL p (List.mem_cons_self p L))) k' hk'
  refine main en_segments.enum _ ?_ (fun k' hk' => by simp at hk') k h
  intro p hp
  have h2 := List.mem_enum_iff_getElem?.mp hp
  by_contra hlt
  rw [List.getElem?_eq_none (le_of_not_lt hlt)] at h2
  exact Option.noConfusion h2

/-- Every segment of Step A's output is taken unchanged from one of the
two input streams. -/
theorem merge_overlapping_pairs_mem (spell_ru spell_en : List Char → Bool)
    (segments_ru segments_en : List TranscriptionSegment) :
    ∀ x ∈ merge_overlapping_pairs spell_ru spell_en segments_ru segments_en,
      x ∈ segments_ru ∨ x ∈ segments_en := by
  intro x hx
  unfold merge_overlapping_pairs at hx
  rcases List.mem_append.mp hx with hx | hx
  · obtain ⟨p, hp, hpe⟩ := List.mem_map.mp hx
    obtain ⟨r, o⟩ := p
    have hzip := List.of_mem_zip hp
    cases o with
    | none =>
      have hpe2 : r = x := hpe
      exact Or.inl (hpe2 ▸ hzip.1)
    | some i =>
      have hpe2 : select_best_segment spell_ru spell_en r (segments_en.getD i default) = x := hpe
      have hio : some i ∈ stepA_pairings spell_ru spell_en segments_ru segments_en := hzip.2
      obtain ⟨r', _, hr'⟩ := List.mem_map.mp hio
      have hib := find_corresponding_segment_bound spell_ru spell_en r' segments_en
        OVERLAP_THRESHOLD i hr'
      rcases select_best_segment_cases spell_ru spell_en r (segments_en.getD i default) with
        hc | hc
      · refine Or.inl ?_
        rw [← hpe2, hc]
        exact hzip.1
      · refine Or.inr ?_
        rw [← hpe2, hc, List.getD_eq_getElem _ _ hib]
        exact List.getElem_mem hib
  · obtain ⟨p, hp, hpe⟩ := List.mem_map.mp hx
    have hpe' := List.mem_enum_iff_getElem?.mp ((List.mem_filter.mp hp).1)
    refine Or.inr ?_
    rw [← hpe]
    have hlt : p.1 < segments_en.length := by
      by_contra hlt
      rw [List.getElem?_eq_none (le_of_not_lt hlt)] at hpe'
      exact Option.noConfusion hpe'
    have := List.getElem?_eq_getElem hlt
    rw [this] at hpe'
    rw [← Option.some.inj hpe']
    exact List.getElem_mem hlt

/-- Every segment produced by Step B keeps the `start_time` and `text`
of a segment of its input (only `end_time` may have been extended). -/
theorem merge_adjacent_aux_mem (l : List TranscriptionSegment) :
    ∀ (last : TranscriptionSegment) (x : TranscriptionSegment), x ∈ merge_adjacent_aux last l →
      ∃ s0 ∈ last :: l, x.start_time = s0.start_time ∧ x.text = s0.text := by
  induction l with
  | nil =>
    intro last x hx
    rw [merge_adjacent_aux] at hx
    rw [List.eq_of_mem_singleton hx]
    exact ⟨last, List.mem_cons_self _ _, rfl, rfl⟩
  | cons seg rest ih =>
    intro last x hx
    unfold merge_adjacent_aux at hx
    split_ifs at hx with h
    · obtain ⟨s0, hs0, h1, h2⟩ := ih _ x hx
      rcases List.mem_cons.mp hs0 with he | hs0
      · exact ⟨last, List.mem_cons_self _ _, by rw [h1, he], by rw [h2, he]⟩
      · exact ⟨s0, List.mem_cons_of_mem _ (List.mem_cons_of_mem _ hs0), h1, h2⟩
    · rcases List.mem_cons.mp hx with he | hx
      · exact ⟨last, List.mem_cons_self _ _, by rw [he], by rw [he]⟩
      · obtain ⟨s0, hs0, h1, h2⟩ := ih seg x hx
        rcases List.mem_cons.mp hs0 with he | hs0
        · exact ⟨seg, List.mem_cons_of_mem _ (List.mem_cons_self _ _), by rw [h1, he],
            by rw [h2, he]⟩
        · exact ⟨s0, List.mem_cons_of_mem _ (List.mem_cons_of_mem _ hs0), h1, h2⟩

/-- Step B preserves the `start_time` and `text` of every segment. -/
theorem merge_adjacent_identical_mem (l : List TranscriptionSegment) :
    ∀ x ∈ merge_adjacent_identical l,
      ∃ s0 ∈ l, x.start_time = s0.start_time ∧ x.text = s0.text := by
  cases l with
  | nil => intro x hx; simp [merge_adjacent_identical] at hx
  | cons seg rest => exact fun x hx => merge_adjacent_aux_mem rest seg x hx

/-- C10: Step A only copies segments from the two input streams, Step C
only keeps segments of its input, the final sort only permutes — so the
only field the pipeline ever modifies is `end_time`, and only in Step B
(which preserves `start_time` and `text`); consequently every segment of
the merged output carries the `start_time` and the `text` of some input
segment unchanged. -/
theorem merge_segments_frame (spell_ru spell_en : List Char → Bool)
    (segments_ru segments_en : List TranscriptionSegment) :
    (∀ x ∈ merge_overlapping_pairs spell_ru spell_en segments_ru segments_en,
      x ∈ segments_ru ∨ x ∈ segments_en) ∧
    (∀ l : List TranscriptionSegment, ∀ x ∈ merge_adjacent_identical l,
      ∃ s0 ∈ l, x.start_time = s0.start_time ∧ x.text = s0.text) ∧
    (∀ l : List TranscriptionSegment, ∀ x ∈ remove_complete_duplicates l, x ∈ l) ∧
    (∀ l : List TranscriptionSegment, List.Perm (List.insertionSort seg_le l) l) ∧
    (∀ x ∈ merge_segments spell_ru spell_en segments_ru segments_en,
      ∃ s0, (s0 ∈ segments_ru ∨ s0 ∈ segments_en) ∧
        x.start_time = s0.start_time ∧ x.text = s0.text) := by
  refine ⟨merge_overlapping_pairs_mem spell_ru spell_en segments_ru segments_en,
    merge_adjacent_identical_mem, remove_complete_duplicates_subset,
    List.perm_insertionSort seg_le, ?_⟩
  intro x hx
  unfold merge_segments at hx
  split_ifs at hx with h
  · simp at hx
  · have hx1 := (List.mem_insertionSort seg_le).mp hx
    have hx2 := remove_complete_duplicates_subset _ x hx1
    obtain ⟨s0, hs0, h1, h2⟩ := merge_adjacent_identical_mem _ x hx2
    rcases merge_overlapping_pairs_mem spell_ru spell_en segments_ru segments_en s0 hs0 with
      hh | hh
    · exact ⟨s0, Or.inl hh, h1, h2⟩
    · exact ⟨s0, Or.inr hh, h1, h2⟩

/-- Witness for C10: on a one-segment RU stream and an empty EN stream,
the single output segment carries the input's `start_time` and `text`. -/
theorem merge_segments_frame_witness :
    ∃ s0, (s0 ∈ [(⟨0, 1, "ab".data⟩ : TranscriptionSegment)] ∨
        s0 ∈ ([] : List TranscriptionSegment)) ∧
      (⟨0, 1, "ab".data⟩ : TranscriptionSegment).start_time = s0.start_time ∧
      (⟨0, 1, "ab".data⟩ : TranscriptionSegment).text = s0.text :=
  (merge_segments_frame all_words_known all_words_known
      [(⟨0, 1, "ab".data⟩ : TranscriptionSegment)] []).2.2.2.2
    ⟨0, 1, "ab".data⟩ (by with_unfolding_all decide)

end Claims

end STT
